import Mathlib

set_option maxRecDepth 40000

/-!
Verification of the in-memory rank accelerator of a real-time leaderboard
service, and of the update-coordinator protocol that keeps it consistent
with the durable store.

The accelerator (`RankManager` in the source) keeps a frequency table of
ratings in a fixed array `[5001]int32` indexed by rating; only indices
100..5000 are ever written.  `GetRank` returns 1 plus the number of users
with a strictly greater rating, `UpdateUserRating` moves one user from an
old rating slot to a new one, and `BulkLoad` seeds the table.  The HTTP
handler `SimulateScoreUpdate` performs the durable transaction and mutates
the accelerator only after a successful commit.
-/

/-- The frequency table: count of users per rating.  The source stores it
as a fixed array `[5001]int32`; we model it as a total map from ratings to
integer counts.  All operations only read and write indices in `[0, 5000]`,
so the extra domain is inert, and `Int` values capture that an `int32` slot
can go negative. -/
abbrev Histogram := Int → Int

/-- The table at process start (`InitRankManager`): all slots zero. -/
def emptyHistogram : Histogram := fun _ => 0

/-- Write a single slot of the table (the effect of `rm.histogram[r] = v`). -/
def setSlot (h : Histogram) (r v : Int) : Histogram :=
  fun s => if s = r then v else h s

/-- `RankManager.UpdateUserRating`: decrement the slot of `oldRating` if it
lies in `[100, 5000]`, then increment the slot of `newRating` if it lies in
`[100, 5000]`. -/
def UpdateUserRating (h : Histogram) (oldRating newRating : Int) : Histogram :=
  let h1 := if 100 ≤ oldRating ∧ oldRating ≤ 5000 then
    setSlot h oldRating (h oldRating - 1) else h
  if 100 ≤ newRating ∧ newRating ≤ 5000 then
    setSlot h1 newRating (h1 newRating + 1) else h1

/-- `RankManager.BulkLoad`: increment the slot of every rating in the batch
that lies in `[100, 5000]`. -/
def BulkLoad (h : Histogram) : List Int → Histogram
  | [] => h
  | r :: rs => BulkLoad (if 100 ≤ r ∧ r ≤ 5000 then setSlot h r (h r + 1) else h) rs

/-- Sum of `n` consecutive slots starting at `lo`: the loop
`for r := lo; r <= hi; r++ \x7b sum += hist[r] \x7d` with `n` iterations. -/
def sumFrom (h : Histogram) (lo : Int) : Nat → Int
  | 0 => 0
  | n + 1 => h lo + sumFrom h (lo + 1) n

/-- `RankManager.GetRank`: rank 1 for ratings above 5000; ratings below 0
are clamped to 0; otherwise 1 plus the sum of all slots strictly above the
rating. -/
def GetRank (h : Histogram) (rating : Int) : Int :=
  if 5000 < rating then 1
  else
    let r := if rating < 0 then 0 else rating
    1 + sumFrom h (r + 1) (5000 - r).toNat

/-- The floor of the tracked rating range: the source's comment says
"Since ratings are bounded (100-5000), we use a fixed-size array", and both
mutating operations guard on `>= 100`. -/
def minRating : Int := 100

/-- The ceiling of the tracked rating range. -/
def maxRating : Int := 5000

/-- Table states reachable from the empty table by `BulkLoad` and
`UpdateUserRating` (the only mutations the accelerator exposes). -/
inductive Reachable : Histogram → Prop where
  | empty : Reachable emptyHistogram
  | bulk (h : Histogram) (rs : List Int) : Reachable h → Reachable (BulkLoad h rs)
  | update (h : Histogram) (oldR newR : Int) :
      Reachable h → Reachable (UpdateUserRating h oldR newR)

/-- Table states reachable when every caller obeys the protocol: an
in-range `oldRating` is only passed when its slot is still positive. -/
inductive ReachableDisc : Histogram → Prop where
  | empty : ReachableDisc emptyHistogram
  | bulk (h : Histogram) (rs : List Int) :
      ReachableDisc h → ReachableDisc (BulkLoad h rs)
  | update (h : Histogram) (oldR newR : Int) :
      ReachableDisc h → (100 ≤ oldR → oldR ≤ 5000 → 0 < h oldR) →
      ReachableDisc (UpdateUserRating h oldR newR)

/-- Outcome of one durable-store interaction in `SimulateScoreUpdate`,
modelling the failure points of the transaction: `db.Begin`, the
`SELECT ... FOR UPDATE` row lookup, the `UPDATE` write, and `tx.Commit`. -/
structure TxEnv where
  beginOk : Bool
  lookup : Option Int
  writeOk : Bool
  commitOk : Bool

/-- The response of `SimulateScoreUpdate`: one constructor per early
return in the handler, plus the success response. -/
inductive UpdateOutcome where
  | beginFailed
  | notFound
  | writeFailed
  | commitFailed
  | updated (oldRating newRating : Int)
deriving DecidableEq

/-- The handler `SimulateScoreUpdate` of `main.go`, with the durable store
abstracted by `TxEnv`: begin a transaction, read the old rating under a row
lock, write the new rating, commit, and only then mutate the accelerator.
Every failure path returns before the accelerator is touched. -/
def SimulateScoreUpdate (env : TxEnv) (h : Histogram) (newRating : Int) :
    UpdateOutcome × Histogram :=
  if env.beginOk = false then (.beginFailed, h)
  else
    match env.lookup with
    | none => (.notFound, h)
    | some oldRating =>
      if env.writeOk = false then (.writeFailed, h)
      else if env.commitOk = false then (.commitFailed, h)
      else (.updated oldRating newRating, UpdateUserRating h oldRating newRating)

/-- Summing an all-zero table gives zero. -/
theorem sumFrom_empty (lo : Int) (n : Nat) : sumFrom emptyHistogram lo n = 0 := by
  induction n generalizing lo with
  | zero => rfl
  | succ n ih => simp [sumFrom, emptyHistogram, ih]

/-- Summing over a table with one slot overwritten: the sum changes by the
slot's delta exactly when the slot lies in the summed window. -/
theorem sumFrom_setSlot (h : Histogram) (r v lo : Int) (n : Nat) :
    sumFrom (setSlot h r v) lo n =
      sumFrom h lo n + (if lo ≤ r ∧ r < lo + (n : Int) then v - h r else 0) := by
  induction n generalizing lo with
  | zero =>
      have hc : ¬ (lo ≤ r ∧ r < lo) := by omega
      simp [sumFrom, hc]
  | succ n ih =>
      simp only [sumFrom, ih (lo + 1), setSlot]
      by_cases hr : lo = r
      · have c1 : (lo ≤ r ∧ r < lo + ((n + 1 : Nat) : Int)) := by omega
        have c2 : ¬ (lo + 1 ≤ r ∧ r < lo + 1 + (n : Int)) := by omega
        simp [hr, c1, c2]
        rw [← hr]
        ring
      · have e : (lo + 1 ≤ r ∧ r < lo + 1 + (n : Int)) ↔
            (lo ≤ r ∧ r < lo + ((n + 1 : Nat) : Int)) := by omega
        simp [hr, e]
        split <;> ring

/-- Pointwise characterisation of `UpdateUserRating`: each slot loses one
exactly when it is the in-range old rating, and gains one exactly when it
is the in-range new rating; the two adjustments are independent. -/
theorem update_apply (h : Histogram) (oldR newR s : Int) :
    UpdateUserRating h oldR newR s =
      h s - (if s = oldR ∧ 100 ≤ oldR ∧ oldR ≤ 5000 then 1 else 0)
          + (if s = newR ∧ 100 ≤ newR ∧ newR ≤ 5000 then 1 else 0) := by
  unfold UpdateUserRating setSlot
  by_cases ho : 100 ≤ oldR ∧ oldR ≤ 5000 <;>
    by_cases hn : 100 ≤ newR ∧ newR ≤ 5000 <;>
      by_cases hso : s = oldR <;>
        by_cases hsn : s = newR <;>
          simp [ho, hn, hso, hsn] <;> omega

/-- `BulkLoad` preserves slot nonnegativity (it only increments). -/
theorem bulkLoad_nonneg (rs : List Int) (h : Histogram) (hp : ∀ s, 0 ≤ h s) :
    ∀ s, 0 ≤ BulkLoad h rs s := by
  induction rs generalizing h with
  | nil => exact hp
  | cons r rs ih =>
      refine ih _ ?_
      intro s
      split
      · simp only [setSlot]
        split
        · have := hp r
          omega
        · exact hp s
      · exact hp s

/-- Sums over a table with nonnegative slots are nonnegative. -/
theorem sumFrom_nonneg (h : Histogram) (hp : ∀ s, 0 ≤ h s) (lo : Int) (n : Nat) :
    0 ≤ sumFrom h lo n := by
  induction n generalizing lo with
  | zero => simp [sumFrom]
  | succ n ih =>
      have hh := hp lo
      have ht := ih (lo + 1)
      simp only [sumFrom]
      omega

/-- Splitting a slot sum at an intermediate point. -/
theorem sumFrom_add (h : Histogram) (m n : Nat) : ∀ lo : Int,
    sumFrom h lo (m + n) = sumFrom h lo m + sumFrom h (lo + (m : Int)) n := by
  induction m with
  | zero => intro lo; simp [sumFrom]
  | succ m ih =>
      intro lo
      have e : m + 1 + n = (m + n) + 1 := by omega
      rw [e]
      simp only [sumFrom, ih (lo + 1)]
      have e2 : lo + 1 + (m : Int) = lo + ((m : Int) + 1) := by ring
      rw [e2]
      push_cast
      ring

/-- On a table with nonnegative slots, every rank is at least 1. -/
theorem one_le_getRank (h : Histogram) (hp : ∀ s, 0 ≤ h s) (rating : Int) :
    1 ≤ GetRank h rating := by
  by_cases hr : 5000 < rating
  · simp [GetRank, hr]
  · have e : GetRank h rating
        = 1 + sumFrom h ((if rating < 0 then 0 else rating) + 1)
            (5000 - (if rating < 0 then 0 else rating)).toNat := by
      simp [GetRank, hr]
    rw [e]
    have := sumFrom_nonneg h hp ((if rating < 0 then 0 else rating) + 1)
      (5000 - (if rating < 0 then 0 else rating)).toNat
    omega

/-- On a table with nonnegative slots, rank is antitone in the score. -/
theorem getRank_le_getRank (h : Histogram) (hp : ∀ s, 0 ≤ h s)
    (a b : Int) (hab : b ≤ a) : GetRank h a ≤ GetRank h b := by
  by_cases ha : 5000 < a
  · have h1 : GetRank h a = 1 := by simp [GetRank, ha]
    rw [h1]
    exact one_le_getRank h hp b
  · have hb : ¬ 5000 < b := by omega
    have ea : GetRank h a
        = 1 + sumFrom h ((if a < 0 then 0 else a) + 1)
            (5000 - (if a < 0 then 0 else a)).toNat := by
      simp [GetRank, ha]
    have eb : GetRank h b
        = 1 + sumFrom h ((if b < 0 then 0 else b) + 1)
            (5000 - (if b < 0 then 0 else b)).toNat := by
      simp [GetRank, hb]
    rw [ea, eb]
    set a' := if a < 0 then 0 else a with hadef
    set b' := if b < 0 then 0 else b with hbdef
    have hb'a' : b' ≤ a' := by
      rw [hadef, hbdef]
      split <;> split <;> omega
    have ha'5 : a' ≤ 5000 := by
      rw [hadef]; split <;> omega
    have hb'0 : 0 ≤ b' := by
      rw [hbdef]; split <;> omega
    have key : (5000 - b').toNat = (a' - b').toNat + (5000 - a').toNat := by omega
    rw [key, sumFrom_add]
    have e3 : b' + 1 + ((a' - b').toNat : Int) = a' + 1 := by omega
    rw [e3]
    have := sumFrom_nonneg h hp (b' + 1) (a' - b').toNat
    omega

/-- Claim C1: the accelerator is mutated only after a successful commit.
Every failure path of `SimulateScoreUpdate` (begin failure, entity not
found, durable-write failure, commit failure) returns the corresponding
error with the frequency table exactly in its pre-request state, and only
on a successful commit is `UpdateUserRating oldRating newRating` applied. -/
theorem updateScore_commit_ordering (env : TxEnv) (h : Histogram) (newRating : Int) :
    (env.beginOk = false →
      SimulateScoreUpdate env h newRating = (.beginFailed, h)) ∧
    (env.beginOk = true → env.lookup = none →
      SimulateScoreUpdate env h newRating = (.notFound, h)) ∧
    (∀ oldRating, env.beginOk = true → env.lookup = some oldRating →
      env.writeOk = false →
      SimulateScoreUpdate env h newRating = (.writeFailed, h)) ∧
    (∀ oldRating, env.beginOk = true → env.lookup = some oldRating →
      env.writeOk = true → env.commitOk = false →
      SimulateScoreUpdate env h newRating = (.commitFailed, h)) ∧
    (∀ oldRating, env.beginOk = true → env.lookup = some oldRating →
      env.writeOk = true → env.commitOk = true →
      SimulateScoreUpdate env h newRating =
        (.updated oldRating newRating, UpdateUserRating h oldRating newRating)) := by
  refine ⟨?_, ?_, ?_, ?_, ?_⟩ <;> intros <;>
    simp_all [SimulateScoreUpdate]

/-- Witness for C1: a simulated commit failure leaves the table untouched,
and a successful commit applies the delta. -/
theorem updateScore_commit_ordering_witness :
    SimulateScoreUpdate ⟨true, some 150, true, false⟩ emptyHistogram 300 =
      (.commitFailed, emptyHistogram) ∧
    SimulateScoreUpdate ⟨true, some 150, true, true⟩ emptyHistogram 300 =
      (.updated 150 300, UpdateUserRating emptyHistogram 150 300) :=
  ⟨(updateScore_commit_ordering ⟨true, some 150, true, false⟩ emptyHistogram 300).2.2.2.1
      150 rfl rfl rfl rfl,
   (updateScore_commit_ordering ⟨true, some 150, true, true⟩ emptyHistogram 300).2.2.2.2
      150 rfl rfl rfl rfl⟩

/-- Counterexample to C2: the state reached from the empty table by the
single call `UpdateUserRating 100 99` (in-range old rating whose slot is
zero, out-of-range new rating) has slot 100 equal to `-1`: the decrement
is performed silently, with no assertion and no clamp. -/
theorem slot_nonneg_counterexample :
    Reachable (UpdateUserRating emptyHistogram 100 99) ∧
    UpdateUserRating emptyHistogram 100 99 100 < 0 := by
  refine ⟨Reachable.update emptyHistogram 100 99 Reachable.empty, ?_⟩
  norm_num [UpdateUserRating, setSlot, emptyHistogram]

/-- Claim C2 (amended): the code performs the decrement unconditionally for
an in-range old score, so nonnegativity is an invariant only of the states
reachable when every caller passes an in-range old score only while its
slot is still positive; over those states no slot is ever negative. -/
theorem slot_nonneg_of_disciplined (h : Histogram) (hr : ReachableDisc h) :
    ∀ s, 0 ≤ h s := by
  induction hr with
  | empty => intro s; exact le_refl 0
  | bulk h rs _ ih => exact bulkLoad_nonneg rs h ih
  | update h oldR newR _ hpos ih =>
      intro s
      rw [update_apply]
      have hs := ih s
      by_cases h1 : s = oldR ∧ 100 ≤ oldR ∧ oldR ≤ 5000
      · have hp1 := hpos h1.2.1 h1.2.2
        have hp2 : h s = h oldR := by rw [h1.1]
        split_ifs <;> omega
      · split_ifs <;> omega

/-- Witness for C2 (amended): a disciplined history (bulk load one user at
100, then move them to 200) keeps the inspected slot nonnegative. -/
theorem slot_nonneg_of_disciplined_witness :
    0 ≤ UpdateUserRating (BulkLoad emptyHistogram [100]) 100 200 150 :=
  slot_nonneg_of_disciplined _
    (ReachableDisc.update _ 100 200
      (ReachableDisc.bulk _ [100] ReachableDisc.empty)
      (fun _ _ => by norm_num [BulkLoad, setSlot, emptyHistogram]))
    150

/-- Counterexample to C3: on the table `bulkLoad [100, 100, 200]` the code
returns `rank 0 = 4` (1 plus the three users with strictly greater
ratings), not 3 as the scenario claims. -/
theorem bulkLoad_rank_scenario_counterexample :
    GetRank (BulkLoad emptyHistogram [100, 100, 200]) 0 ≠ 3 := by
  have e : GetRank (BulkLoad emptyHistogram [100, 100, 200]) 0 = 4 := by
    norm_num [BulkLoad, GetRank, sumFrom_setSlot, sumFrom_empty, setSlot, emptyHistogram]
  omega

/-- Claim C3 (amended): after `bulkLoad [100, 100, 200]` on the empty
table, `rank 100 = 2`, `rank 200 = 1`, and `rank 0 = 4` (not 3: rank is
1 plus the count of strictly greater scores, and all three users rate
above 0). -/
theorem bulkLoad_rank_scenario :
    GetRank (BulkLoad emptyHistogram [100, 100, 200]) 100 = 2 ∧
    GetRank (BulkLoad emptyHistogram [100, 100, 200]) 200 = 1 ∧
    GetRank (BulkLoad emptyHistogram [100, 100, 200]) 0 = 4 := by
  refine ⟨?_, ?_, ?_⟩ <;>
    norm_num [BulkLoad, GetRank, sumFrom_setSlot, sumFrom_empty, setSlot, emptyHistogram]

/-- Counterexample to C4: after `applyDelta 100 300` on the bulk-loaded
table, the code returns `rank 100 = 3` (users at 200 and 300 both rank
above), not 2 as the scenario claims. -/
theorem applyDelta_rank_scenario_counterexample :
    GetRank (UpdateUserRating (BulkLoad emptyHistogram [100, 100, 200]) 100 300) 100 ≠ 2 := by
  have e : GetRank (UpdateUserRating (BulkLoad emptyHistogram [100, 100, 200]) 100 300) 100
      = 3 := by
    norm_num [BulkLoad, UpdateUserRating, GetRank, sumFrom_setSlot, sumFrom_empty,
      setSlot, emptyHistogram]
  omega

/-- Claim C4 (amended): after `applyDelta 100 300` on the table
`bulkLoad [100, 100, 200]`, `rank 300 = 1` and `rank 100 = 3` (not 2: one
user each at 200 and at 300 rank above the remaining user at 100). -/
theorem applyDelta_rank_scenario :
    GetRank (UpdateUserRating (BulkLoad emptyHistogram [100, 100, 200]) 100 300) 300 = 1 ∧
    GetRank (UpdateUserRating (BulkLoad emptyHistogram [100, 100, 200]) 100 300) 100 = 3 := by
  constructor <;>
    norm_num [BulkLoad, UpdateUserRating, GetRank, sumFrom_setSlot, sumFrom_empty,
      setSlot, emptyHistogram]

/-- Claim C5: `applyDelta old new` followed by `applyDelta new old`
restores the frequency table exactly, for every table and all integer
arguments. -/
theorem applyDelta_round_trip (h : Histogram) (oldR newR : Int) :
    UpdateUserRating (UpdateUserRating h oldR newR) newR oldR = h := by
  funext s
  rw [update_apply, update_apply]
  split_ifs <;> ring

/-- Counterexample to C6: on the reachable table obtained from the empty
table by `UpdateUserRating 150 99` (slot 150 driven to `-1`), rank is not
antitone: `rank 150 = 1` but `rank 149 = 0`. -/
theorem rank_antitone_counterexample :
    Reachable (UpdateUserRating emptyHistogram 150 99) ∧
    (149 : Int) < 150 ∧
    ¬ GetRank (UpdateUserRating emptyHistogram 150 99) 150
        ≤ GetRank (UpdateUserRating emptyHistogram 150 99) 149 := by
  refine ⟨Reachable.update emptyHistogram 150 99 Reachable.empty, by norm_num, ?_⟩
  have e1 : GetRank (UpdateUserRating emptyHistogram 150 99) 149 = 0 := by
    norm_num [UpdateUserRating, GetRank, sumFrom_setSlot, sumFrom_empty, setSlot,
      emptyHistogram]
  have e2 : GetRank (UpdateUserRating emptyHistogram 150 99) 150 = 1 := by
    norm_num [UpdateUserRating, GetRank, sumFrom_setSlot, sumFrom_empty, setSlot,
      emptyHistogram]
  omega

/-- Claim C6 (amended): on every table whose slots are all nonnegative
(which the code does not itself guarantee, see C2), rank is antitone:
`a > b` implies `rank a ≤ rank b`. -/
theorem rank_antitone_nonneg (h : Histogram) (hp : ∀ s, 0 ≤ h s)
    (a b : Int) (hab : b < a) : GetRank h a ≤ GetRank h b :=
  getRank_le_getRank h hp a b (le_of_lt hab)

/-- Witness for C6 (amended) on the empty table at scores 10 and 5. -/
theorem rank_antitone_nonneg_witness :
    GetRank emptyHistogram 10 ≤ GetRank emptyHistogram 5 :=
  rank_antitone_nonneg emptyHistogram (fun _ => le_refl 0) 10 5 (by norm_num)

/-- Counterexample to C7: on the reachable table obtained from the empty
table by `UpdateUserRating 200 50` (slot 200 driven to `-1`), the rank of
199 is 0, below the claimed minimum of 1. -/
theorem rank_ge_one_counterexample :
    Reachable (UpdateUserRating emptyHistogram 200 50) ∧
    GetRank (UpdateUserRating emptyHistogram 200 50) 199 < 1 := by
  refine ⟨Reachable.update emptyHistogram 200 50 Reachable.empty, ?_⟩
  have e : GetRank (UpdateUserRating emptyHistogram 200 50) 199 = 0 := by
    norm_num [UpdateUserRating, GetRank, sumFrom_setSlot, sumFrom_empty, setSlot,
      emptyHistogram]
  omega

/-- Claim C7 (amended): `GetRank` is a total function with no error
outcome, and on every table whose slots are all nonnegative it returns a
value at least 1 for every input score. -/
theorem rank_ge_one_nonneg (h : Histogram) (hp : ∀ s, 0 ≤ h s) (rating : Int) :
    1 ≤ GetRank h rating :=
  one_le_getRank h hp rating

/-- Witness for C7 (amended) on the empty table at score 42. -/
theorem rank_ge_one_nonneg_witness : 1 ≤ GetRank emptyHistogram 42 :=
  rank_ge_one_nonneg emptyHistogram (fun _ => le_refl 0) 42

/-- Counterexample to C8: scores below the tracked floor `minRating = 100`
are not clamped to it.  With one user at rating 100, the code returns
`rank 50 = 2` but `rank minRating = 1`, so a score below the floor does
not rank as tied with the floor. -/
theorem rank_clamp_counterexample :
    (50 : Int) < minRating ∧
    GetRank (BulkLoad emptyHistogram [100]) 50 = 2 ∧
    GetRank (BulkLoad emptyHistogram [100]) minRating = 1 := by
  refine ⟨by norm_num [minRating], ?_, ?_⟩ <;>
    norm_num [minRating, BulkLoad, GetRank, sumFrom_setSlot, sumFrom_empty, setSlot,
      emptyHistogram]

/-- Claim C8 (amended): `GetRank` accepts any score with no precondition;
scores above `maxRating = 5000` return rank 1, and negative scores are
clamped to 0 — not to the tracked floor — so for every `score < 0` the
result equals `GetRank h 0`. -/
theorem rank_out_of_range (h : Histogram) (score : Int) :
    (maxRating < score → GetRank h score = 1) ∧
    (score < 0 → GetRank h score = GetRank h 0) := by
  constructor
  · intro hs
    have h5 : 5000 < score := by
      have : maxRating = 5000 := rfl
      omega
    simp [GetRank, h5]
  · intro hs
    have h1 : ¬ 5000 < score := by omega
    norm_num [GetRank, h1, hs]

/-- Witness for C8 (amended) at scores 6000 and -7 on the empty table. -/
theorem rank_out_of_range_witness :
    GetRank emptyHistogram 6000 = 1 ∧
    GetRank emptyHistogram (-7) = GetRank emptyHistogram 0 :=
  ⟨(rank_out_of_range emptyHistogram 6000).1 (by norm_num [maxRating]),
   (rank_out_of_range emptyHistogram (-7)).2 (by norm_num)⟩

/-- Claim C9: `applyDelta` decrements the slot of the old rating exactly
when the old rating lies in `[minRating, maxRating]` (the out-of-range
sentinel skips the decrement), and increments the slot of the new rating
exactly when the new rating lies in the range; each condition depends only
on its own argument. -/
theorem applyDelta_range_conditions (h : Histogram) (oldR newR : Int) :
    UpdateUserRating h oldR newR = fun s =>
      h s - (if s = oldR ∧ minRating ≤ oldR ∧ oldR ≤ maxRating then 1 else 0)
          + (if s = newR ∧ minRating ≤ newR ∧ newR ≤ maxRating then 1 else 0) := by
  funext s
  simpa [minRating, maxRating] using update_apply h oldR newR s

/-- Claim C10: `applyDelta old new` leaves every slot other than the slots
of `old` and `new` unchanged. -/
theorem applyDelta_frame (h : Histogram) (oldR newR s : Int)
    (h1 : s ≠ oldR) (h2 : s ≠ newR) :
    UpdateUserRating h oldR newR s = h s := by
  rw [update_apply]
  simp [h1, h2]

/-- Witness for C10: slot 300 is untouched by `applyDelta 100 200`. -/
theorem applyDelta_frame_witness :
    UpdateUserRating emptyHistogram 100 200 300 = emptyHistogram 300 :=
  applyDelta_frame emptyHistogram 100 200 300 (by norm_num) (by norm_num)
